import Mathlib

/-!
Shallow embedding of the `domain` crate (src/domain/src/{instance,edge,node}.rs):
an in-memory directed graph of soft-deletable nodes and edges.

Modelling conventions:
* Opaque UUID string identifiers are modelled as `Nat`s drawn from a `World`
  allocation counter (`nextId`); UUIDs are globally unique, so distinct
  allocations get distinct ids.
* `Zoned` timestamps are modelled as `Nat` clock values; each operation that
  calls the clock provider reads `World.clock` and advances it by one.  The
  several `Zoned::now()` calls inside a single operation are merged to one
  tick, which no claim observes.
* `Arc<RwLock<Node>>` / `Arc<RwLock<Edge>>` handles are modelled as the ids of
  the referenced entities; the heap behind the handles is the `World`'s
  `nodes` / `edgesStore` lists, keyed by the `id` field.  A node absent from
  `nodes` models a node whose last strong handle was dropped, which is what
  makes a `Weak` parent back-reference fail to upgrade.  Lock acquisition is
  modelled as transparent (it always succeeds and is not reentrancy-checked):
  lock poisoning and same-thread relocking are real-time concurrency behaviour
  outside a sequential state embedding, and every claim below is a sequential
  data-semantics claim.
* Rust methods returning `Result` become `Except`; the `From` conversions of
  error types are applied where the source's `?` operator applies them.
  Dereferencing an `Arc` handle cannot fail in Rust; the `none` branches the
  `Nat`-handle model introduces for a missing store entry are marked below and
  are exercised by no theorem except where they model a genuinely dropped
  node (the weak back-reference).  A Rust panic (an `unwrap` that can actually
  fail) is modelled as `Option.none`.
-/

/-- Rust `InstanceType` from instance.rs: the lifecycle kind of a snapshot. -/
inductive InstanceType where
  | Created
  | Deleted
  | Restored
  | Updated
deriving DecidableEq

/-- Rust `Instance` from instance.rs: an immutable snapshot of a node's value. -/
structure Instance where
  saved_at : Nat
  instance_type : InstanceType
  value : String
deriving DecidableEq

/-- Rust `Instance::new_created` (instance.rs): fresh Created snapshot. -/
def Instance.new_created (t : Nat) (v : String) : Instance :=
  ⟨t, InstanceType.Created, v⟩

/-- Rust `Instance::new_updated` (instance.rs): fresh Updated snapshot. -/
def Instance.new_updated (t : Nat) (v : String) : Instance :=
  ⟨t, InstanceType.Updated, v⟩

/-- Rust `Instance::deleted_child` (instance.rs): carries the value forward under
kind Deleted with a fresh timestamp. -/
def Instance.deleted_child (i : Instance) (t : Nat) : Instance :=
  ⟨t, InstanceType.Deleted, i.value⟩

/-- Rust `Instance::restored_child` (instance.rs): carries the value forward under
kind Restored with a fresh timestamp. -/
def Instance.restored_child (i : Instance) (t : Nat) : Instance :=
  ⟨t, InstanceType.Restored, i.value⟩

/-- Rust `EdgeError` from edge.rs. -/
inductive EdgeError where
  | DeleteDeletedEdge
  | RestoreNotDeletedEdge
  | RwLockError (msg : String)
  | WeakReferenceUpgradeFailed
deriving DecidableEq

/-- Rust `NodeError` from node.rs. -/
inductive NodeError where
  | OperationOnEmptyNode
  | DeleteDeletedNode
  | OperationOnDeletedNode
  | RestoreNotDeletedNode
  | EdgeNotFound
  | RwLockError (msg : String)
  | Edge (e : EdgeError)
deriving DecidableEq

/-- Rust `Node` from node.rs.  `edges` holds `EdgeRef` handles (edge ids): every
edge this node participates in, as parent or as child. -/
structure Node where
  id : Nat
  created_at : Nat
  deleted_at : Option Nat
  instances : List Instance
  edges : List Nat
deriving DecidableEq

/-- Rust `Edge` from edge.rs.  `parent` is the weak back-reference (a node id that
may no longer resolve), `child` the strong reference (a node id). -/
structure Edge where
  id : Nat
  parent : Nat
  child : Nat
  created_at : Nat
  deleted_at : Option Nat
deriving DecidableEq

/-- The heap of shared handles plus the two external services (identifier
provider `nextId`, clock provider `clock`). -/
structure World where
  nodes : List Node
  edgesStore : List Edge
  nextId : Nat
  clock : Nat
deriving DecidableEq

/-- Dereference a node handle: `some` iff the node is still allocated. -/
def findNode (w : World) (h : Nat) : Option Node :=
  w.nodes.find? (fun n => n.id == h)

/-- Dereference an edge handle. -/
def findEdge (w : World) (h : Nat) : Option Edge :=
  w.edgesStore.find? (fun e => e.id == h)

/-- Write back a mutation made through a node handle (in Rust the mutation
happens in place through the `RwLock` guard; ids are unique). -/
def World.updateNode (w : World) (n : Node) : World :=
  { w with nodes := w.nodes.map (fun m => if m.id == n.id then n else m) }

/-- Write back a mutation made through an edge handle. -/
def World.updateEdge (w : World) (e : Edge) : World :=
  { w with edgesStore := w.edgesStore.map (fun f => if f.id == e.id then e else f) }

/-- Advance the clock provider by one call. -/
def World.tick (w : World) : World :=
  { w with clock := w.clock + 1 }

/-- Rust `Node::is_deleted` (node.rs). -/
def Node.is_deleted (n : Node) : Bool :=
  n.deleted_at.isSome

/-- Rust `Edge::is_deleted` (edge.rs). -/
def Edge.is_deleted (e : Edge) : Bool :=
  e.deleted_at.isSome

/-- Rust `Edge::is_live` (edge.rs): own marker unset AND child not soft-deleted AND
the weak parent back-reference upgrades to a non-deleted node
(`is_some_and`).  The child is a strong reference, so its `none` branch is
unreachable in any world that models a Rust heap. -/
def Edge.is_live (w : World) (e : Edge) : Bool :=
  e.deleted_at.isNone &&
    (match findNode w e.child with
     | some c => !c.is_deleted
     | none => false) &&
    (match findNode w e.parent with
     | some p => !p.is_deleted
     | none => false)

/-- Rust `EdgeApi::is_live` on an `EdgeRef` handle (edge.rs): read the lock, then
`Edge::is_live`.  The `none` branch is an unreachable dangling handle. -/
def edgeLive (w : World) (h : Nat) : Bool :=
  match findEdge w h with
  | some e => e.is_live w
  | none => false

/-- Rust `EdgeApi::read_child` (edge.rs): always succeeds in Rust (strong ref);
`none` only for a dangling handle, which no Rust execution produces. -/
def EdgeRef.read_child (w : World) (h : Nat) : Option Nat :=
  (findEdge w h).map Edge.child

/-- Rust `EdgeApi::read_parent` (edge.rs):
`self.read().unwrap().parent.upgrade().unwrap().clone()`.
The second `unwrap` is applied to the result of upgrading the weak
back-reference; when the parent node has been dropped the upgrade returns
`None` and the code panics.  The panic is modelled as `none`. -/
def EdgeRef.read_parent (w : World) (h : Nat) : Option Nat :=
  match findEdge w h with
  | some e =>
      match findNode w e.parent with
      | some _ => some e.parent
      | none => none
  | none => none

/-- Rust `Edge::delete` (edge.rs): fails iff the own marker is already set. -/
def Edge.delete (e : Edge) (t : Nat) : Except EdgeError Edge :=
  if e.is_deleted then Except.error EdgeError.DeleteDeletedEdge
  else Except.ok { e with deleted_at := some t }

/-- Rust `Edge::restore` (edge.rs): fails iff the own marker is unset; only the
edge's own marker is inspected, never the endpoints. -/
def Edge.restore (e : Edge) : Except EdgeError Edge :=
  if !e.is_deleted then Except.error EdgeError.RestoreNotDeletedEdge
  else Except.ok { e with deleted_at := none }

/-- Rust `Edge::panic_on_poison_eq` (edge.rs): two edge handles denote the same
edge iff their `id` fields match. -/
def Edge.panic_on_poison_eq (w : World) (h1 h2 : Nat) : Bool :=
  match findEdge w h1, findEdge w h2 with
  | some e1, some e2 => e1.id == e2.id
  | _, _ => false

/-- Rust `Node::panic_on_poison_eq` (node.rs): node identity is `id` equality. -/
def Node.panic_on_poison_eq (w : World) (h1 h2 : Nat) : Bool :=
  match findNode w h1, findNode w h2 with
  | some n1, some n2 => n1.id == n2.id
  | _, _ => false

/-- Rust `Node::last_instance` (node.rs). -/
def Node.last_instance (n : Node) : Except NodeError Instance :=
  match n.instances.getLast? with
  | some i => Except.ok i
  | none => Except.error NodeError.OperationOnEmptyNode

/-- Rust `Node::deleted_check` (node.rs). -/
def Node.deleted_check (n : Node) : Except NodeError Unit :=
  if n.is_deleted then Except.error NodeError.OperationOnDeletedNode
  else Except.ok ()

/-- Rust `Node::update` (node.rs): deleted-check, then push an Updated instance. -/
def Node.update (n : Node) (v : String) (t : Nat) : Except NodeError Node :=
  match n.deleted_check with
  | Except.error e => Except.error e
  | Except.ok _ =>
      Except.ok { n with instances := n.instances ++ [Instance.new_updated t v] }

/-- Rust `Node::delete` (node.rs): fails on an already-deleted node; otherwise sets
`deleted_at` and appends the last instance's `deleted_child`.  On the (dead
for non-empty histories, see the C9 theorem) empty branch the Rust code
returns the error with `deleted_at` already mutated; the model returns the
error alone, a divergence visible only on empty-history nodes, which no
reachable node has. -/
def Node.delete (n : Node) (t : Nat) : Except NodeError Node :=
  if n.is_deleted then Except.error NodeError.DeleteDeletedNode
  else
    match n.instances.getLast? with
    | some i =>
        Except.ok { n with deleted_at := some t,
                           instances := n.instances ++ [i.deleted_child t] }
    | none => Except.error NodeError.OperationOnEmptyNode

/-- Rust `Node::restore` (node.rs): dual of `Node.delete`. -/
def Node.restore (n : Node) (t : Nat) : Except NodeError Node :=
  if !n.is_deleted then Except.error NodeError.RestoreNotDeletedNode
  else
    match n.instances.getLast? with
    | some i =>
        Except.ok { n with deleted_at := none,
                           instances := n.instances ++ [i.restored_child t] }
    | none => Except.error NodeError.OperationOnEmptyNode

/-- Rust `Node::value` (node.rs): the value of the last instance. -/
def Node.value (n : Node) : Except NodeError String :=
  match n.last_instance with
  | Except.ok i => Except.ok i.value
  | Except.error _ => Except.error NodeError.OperationOnEmptyNode

/-- Rust `Node::edges` / `edges_mut` (node.rs): the node's handles filtered to the
currently-live ones, in insertion order. -/
def Node.live_edges (w : World) (n : Node) : List Nat :=
  n.edges.filter (fun h => edgeLive w h)

/-- Rust `Node::dead_edges_mut` (node.rs): the complementary non-live handles. -/
def Node.dead_edges (w : World) (n : Node) : List Nat :=
  n.edges.filter (fun h => !edgeLive w h)

/-- The predicate both `Node::is_parent_of` and `Node::remove_child` apply to
each candidate edge: `Node::panic_on_poison_eq(edge.read_child(), other)`. -/
def childMatches (w : World) (h : Nat) (conn : Nat) : Bool :=
  match EdgeRef.read_child w h with
  | some ch => Node.panic_on_poison_eq w ch conn
  | none => false

/-- Rust `Node::is_parent_of` (node.rs): some live edge of this node's collection
whose child matches `conn` by id.  The parent side of the edge is not
inspected. -/
def Node.is_parent_of (w : World) (n : Node) (conn : Nat) : Bool :=
  (n.live_edges w).any (fun h => childMatches w h conn)

/-- Rust `Node::edge_count` (node.rs): count of live edges. -/
def Node.edge_count (w : World) (n : Node) : Except NodeError Nat :=
  Except.ok (n.live_edges w).length

/-- Rust `Node::add_or_restore_edge` (node.rs): search the dead edges for one whose
*id* equals the supplied edge's id (`Edge::panic_on_poison_eq`); restore it if
found, otherwise push the supplied handle.  Returns the node and the world
because restoring mutates the edge store. -/
def Node.add_or_restore_edge (w : World) (n : Node) (newH : Nat) :
    Except NodeError (Node × World) :=
  match (n.dead_edges w).find? (fun h => Edge.panic_on_poison_eq w h newH) with
  | some h =>
      match findEdge w h with
      | some e =>
          match e.restore with
          | Except.ok e1 => Except.ok (n, w.updateEdge e1)
          | Except.error err => Except.error (NodeError.Edge err)
      | none => Except.error (NodeError.RwLockError "dangling handle")
  | none => Except.ok ({ n with edges := n.edges ++ [newH] }, w)

/-- Rust `Node::remove_child` (node.rs): deleted-check, find the first live edge
whose child matches, and `delete` it (only that edge's own marker is set). -/
def Node.remove_child (w : World) (n : Node) (conn : Nat) :
    Except NodeError World :=
  if n.is_deleted then Except.error NodeError.OperationOnDeletedNode
  else
    match (n.live_edges w).find? (fun h => childMatches w h conn) with
    | some h =>
        match findEdge w h with
        | some e =>
            match e.delete w.clock with
            | Except.ok e1 => Except.ok ((w.updateEdge e1).tick)
            | Except.error err => Except.error (NodeError.Edge err)
        | none => Except.error (NodeError.RwLockError "dangling handle")
    | none => Except.error NodeError.EdgeNotFound

/-- Rust `Node::new` (node.rs): fresh id, Created instance, no edges. -/
def Node.new (i t : Nat) (v : String) : Node :=
  ⟨i, t, none, [Instance.new_created t v], []⟩

/-- Rust `NodeApi::new_ref` (node.rs): allocate a node, returning its handle. -/
def World.new_node (w : World) (v : String) : Nat × World :=
  (w.nextId,
   { w with nodes := w.nodes ++ [Node.new w.nextId w.clock v],
            nextId := w.nextId + 1,
            clock := w.clock + 1 })

/-- Rust `NodeApi::update` through a handle. -/
def World.update_node (w : World) (h : Nat) (v : String) :
    Except NodeError World :=
  match findNode w h with
  | some n =>
      match n.update v w.clock with
      | Except.ok n1 => Except.ok ((w.updateNode n1).tick)
      | Except.error err => Except.error err
  | none => Except.error (NodeError.RwLockError "dangling handle")

/-- Rust `NodeApi::delete` through a handle. -/
def World.delete_node (w : World) (h : Nat) : Except NodeError World :=
  match findNode w h with
  | some n =>
      match n.delete w.clock with
      | Except.ok n1 => Except.ok ((w.updateNode n1).tick)
      | Except.error err => Except.error err
  | none => Except.error (NodeError.RwLockError "dangling handle")

/-- Rust `NodeApi::restore` through a handle. -/
def World.restore_node (w : World) (h : Nat) : Except NodeError World :=
  match findNode w h with
  | some n =>
      match n.restore w.clock with
      | Except.ok n1 => Except.ok ((w.updateNode n1).tick)
      | Except.error err => Except.error err
  | none => Except.error (NodeError.RwLockError "dangling handle")

/-- Rust `NodeApi::is_parent_of` through a handle. -/
def World.is_parent_of (w : World) (h conn : Nat) : Bool :=
  match findNode w h with
  | some n => n.is_parent_of w conn
  | none => false

/-- Rust `NodeApi::remove_child` through a handle. -/
def World.remove_child (w : World) (h conn : Nat) : Except NodeError World :=
  match findNode w h with
  | some n => n.remove_child w conn
  | none => Except.error (NodeError.RwLockError "dangling handle")

/-- Rust `NodeApi::edge_count` through a handle. -/
def World.edge_count (w : World) (h : Nat) : Except NodeError Nat :=
  match findNode w h with
  | some n => n.edge_count w
  | none => Except.error (NodeError.RwLockError "dangling handle")

/-- Rust `NodeApi::connect_parent_child` (node.rs): lock parent then child,
deleted-check both, mint one fresh edge (weak parent back-reference, strong
child reference), then `add_or_restore_edge` on the parent and on the child
with that same fresh handle. -/
def World.connect (w : World) (pid cid : Nat) : Except NodeError World :=
  match findNode w pid with
  | none => Except.error (NodeError.RwLockError "dangling handle")
  | some parent =>
      if parent.is_deleted then Except.error NodeError.OperationOnDeletedNode
      else
        match findNode w cid with
        | none => Except.error (NodeError.RwLockError "dangling handle")
        | some child =>
            if child.is_deleted then Except.error NodeError.OperationOnDeletedNode
            else
              let h := w.nextId
              let e : Edge := ⟨h, pid, cid, w.clock, none⟩
              let w1 : World :=
                { w with edgesStore := w.edgesStore ++ [e],
                         nextId := w.nextId + 1,
                         clock := w.clock + 1 }
              match parent.add_or_restore_edge w1 h with
              | Except.error err => Except.error err
              | Except.ok (parent1, w2) =>
                  let w3 := w2.updateNode parent1
                  match child.add_or_restore_edge w3 h with
                  | Except.error err => Except.error err
                  | Except.ok (child1, w4) => Except.ok (w4.updateNode child1)

/-- The empty world: no allocations, fresh provider states. -/
def w0 : World := ⟨[], [], 0, 0⟩

/-- Two fresh nodes: parent handle 0 (value "v1"), child handle 1 ("v2"). -/
def wA : World := ((w0.new_node "v1").2.new_node "v2").2

/-- After the first `connect(0, 1)`. -/
def wB : World :=
  match wA.connect 0 1 with
  | Except.ok w => w
  | Except.error _ => wA

/-- After a second `connect(0, 1)` in succession. -/
def wC : World :=
  match wB.connect 0 1 with
  | Except.ok w => w
  | Except.error _ => wB

/-- After `remove_child(0, 1)` from the once-connected world. -/
def wD : World :=
  match wB.remove_child 0 1 with
  | Except.ok w => w
  | Except.error _ => wB

/-- After reconnecting: `connect(0, 1)` on the disconnected world. -/
def wE : World :=
  match wD.connect 0 1 with
  | Except.ok w => w
  | Except.error _ => wD

/-- The spec's reading of `is_parent_of` (node-level), for comparison with the
code's: "true iff some edge in this node's edge collection has this node as
parent and `other` (by identity) as its live child" — i.e. the edge is live,
its *parent side is this node*, and its child matches `conn` by id. -/
def spec_is_parent_of (w : World) (n : Node) (conn : Nat) : Bool :=
  n.edges.any (fun h =>
    edgeLive w h &&
      (match findEdge w h with
       | some e => (e.parent == n.id) && Node.panic_on_poison_eq w e.child conn
       | none => false))

/-- The spec's reading of `is_parent_of`, through a node handle. -/
def spec_is_parent_of_handle (w : World) (h conn : Nat) : Bool :=
  match findNode w h with
  | some n => spec_is_parent_of w n conn
  | none => false

/-- A world in which node 1 is alive and holds edge 2, whose parent node 0 has
been fully dropped (no entry in `nodes`): the weak back-reference no longer
upgrades.  Edge 2's own `deleted_at` is unset. -/
def w7 : World :=
  ⟨[⟨1, 0, none, [Instance.new_created 0 "v2"], [2]⟩], [⟨2, 0, 1, 0, none⟩], 3, 1⟩

/-- A never-deleted edge (own marker unset). -/
def e8a : Edge := ⟨9, 0, 1, 0, none⟩

/-- An explicitly deleted edge (own marker set). -/
def e8b : Edge := ⟨9, 0, 1, 0, some 5⟩

/-- World `wB` after soft-deleting the parent node 0. -/
def c5w1 : World :=
  match wB.delete_node 0 with
  | Except.ok w => w
  | Except.error _ => wB

/-- World `c5w1` after restoring the parent node 0. -/
def c5w2 : World :=
  match c5w1.restore_node 0 with
  | Except.ok w => w
  | Except.error _ => c5w1

/-- The edge record of handle 2 in `wB`. -/
def c5e : Edge := (findEdge wB 2).getD ⟨99, 0, 0, 0, none⟩

/-- A fresh standalone node, start of the update-delete-restore-update run. -/
def c6n0 : Node := Node.new 0 0 "a"

/-- Node `c6n0` after `update("b")`. -/
def c6n1 : Node := (c6n0.update "b" 1).toOption.getD c6n0

/-- Node `c6n1` after `delete()`. -/
def c6n2 : Node := (c6n1.delete 2).toOption.getD c6n1

/-- Node `c6n2` after `restore()`. -/
def c6n3 : Node := (c6n2.restore 3).toOption.getD c6n2

/-- Node `c6n3` after `update("c")`. -/
def c6n4 : Node := (c6n3.update "c" 4).toOption.getD c6n3

/-- The parent node record (handle 0) in the doubly-connected world `wC`. -/
def c10n : Node := (findNode wC 0).getD (Node.new 99 0 "")

/-- The edge record of handle 2 in `wC`: the first of the two live edges from
node 0 to node 1. -/
def c10e : Edge := (findEdge wC 2).getD ⟨99, 0, 0, 0, none⟩

deriving instance DecidableEq for Except

/-! Helper lemmas about the store and the traversal combinators. -/

theorem findEdge_updateNode (w : World) (n : Node) (h : Nat) :
    findEdge (w.updateNode n) h = findEdge w h := rfl

theorem findNode_updateEdge (w : World) (e : Edge) (h : Nat) :
    findNode (w.updateEdge e) h = findNode w h := rfl

theorem findNode_tick (w : World) (h : Nat) : findNode w.tick h = findNode w h := rfl

theorem findEdge_tick (w : World) (h : Nat) : findEdge w.tick h = findEdge w h := rfl

theorem is_live_updateEdge_tick (w : World) (e1 f : Edge) :
    Edge.is_live ((w.updateEdge e1).tick) f = Edge.is_live w f := rfl

theorem findNode_id {w : World} {i : Nat} {n : Node} (h : findNode w i = some n) :
    n.id = i := by
  have h2 := List.find?_some h
  simpa using h2

theorem findEdge_id {w : World} {i : Nat} {e : Edge} (h : findEdge w i = some e) :
    e.id = i := by
  have h2 := List.find?_some h
  simpa using h2

theorem find?_cons_eq {α : Type} (p : α → Bool) (a : α) (l : List α) :
    (a :: l).find? p = if p a = true then some a else l.find? p := by
  by_cases h : p a = true
  · rw [List.find?_cons_of_pos _ h, if_pos h]
  · rw [List.find?_cons_of_neg _ h, if_neg h]

theorem find?_replace_self {α : Type} (key : α → Nat) {l : List α} {i : Nat} {p : α}
    (n : α) (hf : l.find? (fun m => key m == i) = some p) (hid : key n = i) :
    (l.map (fun m => if key m == key n then n else m)).find? (fun m => key m == i) =
      some n := by
  induction l with
  | nil => simp at hf
  | cons a t ih =>
      simp only [List.map_cons]
      by_cases ha : key a = i
      · rw [show (if (key a == key n) = true then n else a) = n from by simp [ha, hid]]
        rw [find?_cons_eq]
        simp [hid]
      · have hb : ¬(key a = key n) := fun hh => ha (hh.trans hid)
        rw [find?_cons_eq] at hf
        rw [if_neg (by simpa using ha)] at hf
        rw [show (if (key a == key n) = true then n else a) = a from by simp [hb]]
        rw [find?_cons_eq, if_neg (by simpa using ha)]
        exact ih hf

theorem find?_replace_ne {α : Type} (key : α → Nat) {i : Nat} (n : α)
    (hne : i ≠ key n) (l : List α) :
    (l.map (fun m => if key m == key n then n else m)).find? (fun m => key m == i) =
      l.find? (fun m => key m == i) := by
  induction l with
  | nil => rfl
  | cons a t ih =>
      simp only [List.map_cons]
      by_cases hb : key a = key n
      · rw [show (if (key a == key n) = true then n else a) = n from by simp [hb]]
        rw [find?_cons_eq, find?_cons_eq]
        rw [if_neg (by simp; exact fun hh => hne hh.symm)]
        rw [if_neg (by simp [hb]; exact fun hh => hne hh.symm)]
        exact ih
      · rw [show (if (key a == key n) = true then n else a) = a from by simp [hb]]
        rw [find?_cons_eq, find?_cons_eq]
        by_cases ha : (key a == i) = true
        · rw [if_pos ha, if_pos ha]
        · rw [if_neg ha, if_neg ha]
          exact ih

theorem findNode_updateNode_self {w : World} {i : Nat} {p : Node} (n : Node)
    (hf : findNode w i = some p) (hid : n.id = i) :
    findNode (w.updateNode n) i = some n :=
  find?_replace_self Node.id n hf hid

theorem findNode_updateNode_ne {w : World} {i : Nat} (n : Node) (hne : i ≠ n.id) :
    findNode (w.updateNode n) i = findNode w i :=
  find?_replace_ne Node.id n hne w.nodes

theorem findEdge_updateEdge_self {w : World} {i : Nat} {p : Edge} (e : Edge)
    (hf : findEdge w i = some p) (hid : e.id = i) :
    findEdge (w.updateEdge e) i = some e :=
  find?_replace_self Edge.id e hf hid

theorem findEdge_updateEdge_ne {w : World} {i : Nat} (e : Edge) (hne : i ≠ e.id) :
    findEdge (w.updateEdge e) i = findEdge w i :=
  find?_replace_ne Edge.id e hne w.edgesStore

theorem is_live_iff (w : World) (e : Edge) :
    e.is_live w = true ↔
      e.deleted_at = none ∧
      (∃ c, findNode w e.child = some c ∧ c.is_deleted = false) ∧
      (∃ p, findNode w e.parent = some p ∧ p.is_deleted = false) := by
  unfold Edge.is_live
  cases hc : findNode w e.child <;> cases hp : findNode w e.parent <;>
    simp [Bool.and_eq_true, Bool.not_eq_true', Option.isNone_iff_eq_none, and_assoc]

theorem childMatches_iff {w : World} {h conn : Nat} :
    childMatches w h conn = true ↔
      ∃ e, findEdge w h = some e ∧ Node.panic_on_poison_eq w e.child conn = true := by
  unfold childMatches EdgeRef.read_child
  cases hf : findEdge w h <;> simp [hf]

theorem mem_live_edges {w : World} {n : Node} {h : Nat} :
    h ∈ n.live_edges w ↔ h ∈ n.edges ∧ edgeLive w h = true := by
  simp [Node.live_edges, List.mem_filter]

theorem find?_eq_head?_filter (p : Nat → Bool) (l : List Nat) :
    l.find? p = (l.filter p).head? := by
  induction l with
  | nil => rfl
  | cons a t ih =>
      rw [find?_cons_eq, List.filter_cons]
      by_cases hpa : p a = true
      · rw [if_pos hpa, if_pos hpa]
        rfl
      · rw [if_neg hpa, if_neg hpa]
        exact ih

theorem filter_length_flip {l : List Nat} {q p : Nat → Bool} {h : Nat}
    (hd : l.Nodup) (hm : h ∈ l) (hp : p h = true) (hq : q h = false)
    (hagree : ∀ x ∈ l, x ≠ h → q x = p x) :
    (l.filter q).length + 1 = (l.filter p).length := by
  induction l with
  | nil => simp at hm
  | cons a t ih =>
      rcases List.nodup_cons.mp hd with ⟨hna, hdt⟩
      rcases List.mem_cons.mp hm with rfl | hmt
      · have hqt : t.filter q = t.filter p := by
          apply List.filter_congr
          intro x hx
          exact hagree x (List.mem_cons_of_mem _ hx) (fun hxh => hna (hxh ▸ hx))
        simp [List.filter_cons, hp, hq, hqt]
      · have hane : a ≠ h := fun hah => hna (hah ▸ hmt)
        have ha : q a = p a := hagree a (List.mem_cons_self a t) hane
        have ihh := ih hdt hmt
          (fun x hx hxh => hagree x (List.mem_cons_of_mem _ hx) hxh)
        cases hpa : p a
        · simp [List.filter_cons, ha, hpa]
          omega
        · simp [List.filter_cons, ha, hpa]
          omega

/-! Claim theorems. -/

/-- C1: calling `connect(P, C)` twice in succession does NOT leave exactly one
live edge: with two fresh distinct non-deleted nodes 0 and 1, the second
`connect` mints a fresh edge id that matches no dead edge (the dead-edge
search compares edge ids), so the parent ends with two live edges to the
child and `edge_count()` returns 2, not 1. -/
theorem connect_twice_gives_two_live_edges :
    wA.connect 0 1 = Except.ok wB ∧
    wB.connect 0 1 = Except.ok wC ∧
    wB.edge_count 0 = Except.ok 1 ∧
    wC.edge_count 0 = Except.ok 2 ∧
    (findNode wC 0).map (fun n => n.live_edges wC) = some [2, 3] ∧
    wC.edge_count 0 ≠ Except.ok 1 := by
  refine ⟨by decide, by decide, by decide, by decide, by decide, by decide⟩

/-- C2: `connect(0,1)`; `remove_child(0,1)`; `connect(0,1)` does NOT restore
the original edge: `edge_count` is 1, then 0, then 1 as the claim says, but
the live edge after the reconnect is a freshly-minted edge (id 3), while the
original edge (id 2) stays soft-deleted — the same-id restore search can
never match a fresh id. -/
theorem roundtrip_reconnect_creates_fresh_edge :
    wA.connect 0 1 = Except.ok wB ∧
    wB.edge_count 0 = Except.ok 1 ∧
    (findNode wB 0).map (fun n => n.live_edges wB) = some [2] ∧
    wB.remove_child 0 1 = Except.ok wD ∧
    wD.edge_count 0 = Except.ok 0 ∧
    wD.connect 0 1 = Except.ok wE ∧
    wE.edge_count 0 = Except.ok 1 ∧
    (findNode wE 0).map (fun n => n.live_edges wE) = some [3] ∧
    edgeLive wE 2 = false ∧
    (findEdge wE 2).map Edge.deleted_at = some (some 3) := by
  refine ⟨by decide, by decide, by decide, by decide, by decide, by decide,
    by decide, by decide, by decide, by decide⟩

/-- C7: in a world whose node 0 has been fully dropped while edge 2 (with
parent back-reference 0, child 1) is still reachable, `read_parent()` on
edge 2 hits `upgrade().unwrap()` on a failed upgrade — a panic, modelled as
`none` — instead of failing with the typed `WeakReferenceUpgradeFailed`
error; `read_parent`'s return type has no error channel at all. -/
theorem read_parent_panics_on_vanished_parent :
    findEdge w7 2 = some ⟨2, 0, 1, 0, none⟩ ∧
    findNode w7 0 = none ∧
    EdgeRef.read_parent w7 2 = none := by
  refine ⟨by decide, by decide, by decide⟩

/-- C3 counterexample: after `connect(0, 1)`, the CHILD node 1 reports
`is_parent_of(node 1) == true` — the edge 0→1 is in node 1's collection,
is live, and has node 1 as its child — even though no edge has node 1 as
its parent side, so the spec's reading (`spec_is_parent_of_handle`) is
false there.  The claim's "iff" fails at N = O = node 1. -/
theorem is_parent_of_ignores_parent_side_counterexample :
    World.is_parent_of wB 1 1 = true ∧
    spec_is_parent_of_handle wB 1 1 = false := by
  refine ⟨by decide, by decide⟩

/-- C3 amended: `is_parent_of(other)` is true iff some edge handle in the
node's collection is live and its child matches `other` by id — the parent
side of the edge is never inspected. -/
theorem is_parent_of_checks_child_side_only (w : World) (n : Node) (conn : Nat) :
    n.is_parent_of w conn = true ↔
      ∃ h e, h ∈ n.edges ∧ edgeLive w h = true ∧ findEdge w h = some e ∧
        Node.panic_on_poison_eq w e.child conn = true := by
  unfold Node.is_parent_of
  rw [List.any_eq_true]
  constructor
  · rintro ⟨h, hm, hc⟩
    rcases childMatches_iff.mp hc with ⟨e, he, hpe⟩
    rcases mem_live_edges.mp hm with ⟨hmm, hl⟩
    exact ⟨h, e, hmm, hl, he, hpe⟩
  · rintro ⟨h, e, hmm, hl, he, hpe⟩
    exact ⟨h, mem_live_edges.mpr ⟨hmm, hl⟩, childMatches_iff.mpr ⟨e, he, hpe⟩⟩

/-- C4: `is_live()` is true iff the edge's own `deleted_at` is unset, the
child resolves to a non-soft-deleted node, and the weak parent back-reference
resolves to a non-soft-deleted node (a failed resolution or a deleted parent
makes it false).  The right-hand side mentions only the current world state,
so the value is recomputed from the endpoints' current states at every call —
nothing is cached in the edge. -/
theorem is_live_iff_derived (w : World) (e : Edge) :
    e.is_live w = true ↔
      e.deleted_at = none ∧
      (∃ c, findNode w e.child = some c ∧ c.is_deleted = false) ∧
      (∃ p, findNode w e.parent = some p ∧ p.is_deleted = false) :=
  is_live_iff w e

/-- C8: `restore()` fails with `RestoreNotDeletedEdge` exactly when the
edge's own `deleted_at` is unset, and otherwise just clears it; in
particular an edge that is not live (for any world, e.g. because an endpoint
is soft-deleted) but whose own marker is unset is not restorable. -/
theorem edge_restore_only_inspects_own_marker (e : Edge) :
    (e.restore = Except.error EdgeError.RestoreNotDeletedEdge ↔ e.deleted_at = none) ∧
    (∀ t, e.deleted_at = some t → e.restore = Except.ok { e with deleted_at := none }) ∧
    (∀ w, e.deleted_at = none → e.is_live w = false →
      e.restore = Except.error EdgeError.RestoreNotDeletedEdge) := by
  refine ⟨?_, ?_, ?_⟩
  · cases hd : e.deleted_at <;> simp [Edge.restore, Edge.is_deleted, hd]
  · intro t hd
    simp [Edge.restore, Edge.is_deleted, hd]
  · intro w hd _
    simp [Edge.restore, Edge.is_deleted, hd]

/-- C8 witness: a concrete never-deleted edge (`e8a`, not live in `w0`
because nothing resolves there) is rejected by `restore()`, and a concrete
deleted edge (`e8b`) is restored by clearing its marker. -/
theorem edge_restore_only_inspects_own_marker_witness :
    e8a.restore = Except.error EdgeError.RestoreNotDeletedEdge ∧
    e8b.restore = Except.ok { e8b with deleted_at := none } ∧
    e8a.is_live w0 = false :=
  ⟨(edge_restore_only_inspects_own_marker e8a).2.2 w0 (by decide) (by decide),
   (edge_restore_only_inspects_own_marker e8b).2.1 5 (by decide),
   by decide⟩

/-- C9: on any node with a non-empty instance history — the invariant every
constructed node maintains — `value()` succeeds with the last instance's
value, and neither `delete()` nor `restore()` can ever return
`OperationOnEmptyNode`: that defensive branch is unreachable. -/
theorem empty_node_branch_unreachable (n : Node) (h : n.instances ≠ []) :
    (∃ i, n.instances.getLast? = some i ∧ n.value = Except.ok i.value) ∧
    (∀ t, n.delete t ≠ Except.error NodeError.OperationOnEmptyNode) ∧
    (∀ t, n.restore t ≠ Except.error NodeError.OperationOnEmptyNode) := by
  have hi : n.instances.getLast? = some (n.instances.getLast h) :=
    List.getLast?_eq_getLast n.instances h
  refine ⟨⟨_, hi, ?_⟩, ?_, ?_⟩
  · unfold Node.value Node.last_instance
    rw [hi]
  · intro t hcon
    by_cases hd : n.is_deleted <;> simp [Node.delete, hd, hi] at hcon
  · intro t hcon
    by_cases hd : n.is_deleted <;> simp [Node.restore, hd, hi] at hcon

/-- C9 witness: a freshly constructed node (history `[Created "a"]`). -/
theorem empty_node_branch_unreachable_witness :
    c6n0.value = Except.ok "a" ∧
    c6n0.delete 1 ≠ Except.error NodeError.OperationOnEmptyNode ∧
    c6n0.restore 1 ≠ Except.error NodeError.OperationOnEmptyNode := by
  obtain ⟨⟨i, hi, hv⟩, h2, h3⟩ := empty_node_branch_unreachable c6n0 (by decide)
  refine ⟨?_, h2 1, h3 1⟩
  have hg : c6n0.instances.getLast? = some (Instance.new_created 0 "a") := by decide
  have hii : i = Instance.new_created 0 "a" := Option.some.inj (hi.symm.trans hg)
  rw [hii] at hv
  exact hv

/-- C6: the history is a singleton at construction; a successful `update`
appends exactly the one new Updated instance; successful `delete`/`restore`
append exactly one instance derived from (and carrying the value of) the
prior last instance; and through an update-delete-restore-update run the
history grows by exactly one per operation and `value()` ends at the last
update's argument. -/
theorem instance_history_monotone :
    (∀ i t v, (Node.new i t v).instances.length = 1) ∧
    (∀ (n : Node) v t n1, n.update v t = Except.ok n1 →
      n1.instances = n.instances ++ [Instance.new_updated t v]) ∧
    (∀ (n : Node) t n1, n.delete t = Except.ok n1 →
      ∃ j, n.instances.getLast? = some j ∧
        n1.instances = n.instances ++ [j.deleted_child t] ∧
        (j.deleted_child t).value = j.value ∧
        n1.instances.length = n.instances.length + 1) ∧
    (∀ (n : Node) t n1, n.restore t = Except.ok n1 →
      ∃ j, n.instances.getLast? = some j ∧
        n1.instances = n.instances ++ [j.restored_child t] ∧
        (j.restored_child t).value = j.value ∧
        n1.instances.length = n.instances.length + 1) ∧
    (∀ (n : Node) v1 t1 n1 t2 n2 t3 n3 v2 t4 n4,
      n.update v1 t1 = Except.ok n1 → n1.delete t2 = Except.ok n2 →
      n2.restore t3 = Except.ok n3 → n3.update v2 t4 = Except.ok n4 →
      n1.instances.length = n.instances.length + 1 ∧
      n2.instances.length = n.instances.length + 2 ∧
      n3.instances.length = n.instances.length + 3 ∧
      n4.instances.length = n.instances.length + 4 ∧
      n4.value = Except.ok v2) := by
  have hupd : ∀ (n : Node) v t n1, n.update v t = Except.ok n1 →
      n1.instances = n.instances ++ [Instance.new_updated t v] := by
    intro n v t n1 h
    by_cases hd : n.is_deleted <;>
      simp [Node.update, Node.deleted_check, hd] at h
    rw [← h]
  have hdel : ∀ (n : Node) t n1, n.delete t = Except.ok n1 →
      ∃ j, n.instances.getLast? = some j ∧
        n1.instances = n.instances ++ [j.deleted_child t] ∧
        (j.deleted_child t).value = j.value ∧
        n1.instances.length = n.instances.length + 1 := by
    intro n t n1 h
    by_cases hd : n.is_deleted <;> simp [Node.delete, hd] at h
    cases hg : n.instances.getLast? with
    | none => rw [hg] at h; simp at h
    | some j =>
        rw [hg] at h
        simp at h
        refine ⟨j, rfl, ?_, rfl, ?_⟩
        · rw [← h]
        · rw [← h]
          simp
  have hres : ∀ (n : Node) t n1, n.restore t = Except.ok n1 →
      ∃ j, n.instances.getLast? = some j ∧
        n1.instances = n.instances ++ [j.restored_child t] ∧
        (j.restored_child t).value = j.value ∧
        n1.instances.length = n.instances.length + 1 := by
    intro n t n1 h
    by_cases hd : n.is_deleted <;> simp [Node.restore, hd] at h
    cases hg : n.instances.getLast? with
    | none => rw [hg] at h; simp at h
    | some j =>
        rw [hg] at h
        simp at h
        refine ⟨j, rfl, ?_, rfl, ?_⟩
        · rw [← h]
        · rw [← h]
          simp
  refine ⟨fun i t v => rfl, hupd, hdel, hres, ?_⟩
  intro n v1 t1 n1 t2 n2 t3 n3 v2 t4 n4 h1 h2 h3 h4
  have e1 := hupd n v1 t1 n1 h1
  obtain ⟨j2, _, e2, _, l2⟩ := hdel n1 t2 n2 h2
  obtain ⟨j3, _, e3, _, l3⟩ := hres n2 t3 n3 h3
  have e4 := hupd n3 v2 t4 n4 h4
  have len1 : n1.instances.length = n.instances.length + 1 := by
    rw [e1]; simp
  have len4 : n4.instances.length = n3.instances.length + 1 := by
    rw [e4]; simp
  refine ⟨len1, by omega, by omega, by omega, ?_⟩
  unfold Node.value Node.last_instance
  rw [e4, List.getLast?_concat]
  rfl

/-- C6 witness: the concrete run `"a"` → update `"b"` → delete → restore →
update `"c"` on a fresh node. -/
theorem instance_history_monotone_witness :
    c6n0.instances.length = 1 ∧
    Node.update c6n0 "b" 1 = Except.ok c6n1 ∧
    c6n1.instances.length = c6n0.instances.length + 1 ∧
    c6n4.instances.length = c6n0.instances.length + 4 ∧
    c6n4.value = Except.ok "c" := by
  have hseq := instance_history_monotone.2.2.2.2 c6n0 "b" 1 c6n1 2 c6n2 3 c6n3 "c" 4 c6n4
    (by decide) (by decide) (by decide) (by decide)
  exact ⟨instance_history_monotone.1 0 0 "a", by decide, hseq.1, hseq.2.2.2.1, hseq.2.2.2.2⟩

/-- Shape of a successful `Node::delete`: marker set to `now`, one instance
appended, everything else (id, edges) untouched. -/
theorem node_delete_ok {p pd : Node} {t : Nat} (h : p.delete t = Except.ok pd) :
    pd.id = p.id ∧ pd.deleted_at = some t ∧ pd.edges = p.edges ∧
      (∃ j, p.instances.getLast? = some j ∧ pd.instances = p.instances ++ [j.deleted_child t]) := by
  unfold Node.delete at h
  by_cases hd : p.is_deleted
  · rw [if_pos hd] at h
    exact Except.noConfusion h
  · rw [if_neg hd] at h
    cases hg : p.instances.getLast? with
    | none => rw [hg] at h; exact Except.noConfusion h
    | some j =>
        rw [hg] at h
        obtain rfl := (Except.ok.inj h).symm
        exact ⟨rfl, rfl, rfl, j, rfl, rfl⟩

/-- Shape of a successful `Node::restore`: marker cleared, one instance
appended, everything else untouched. -/
theorem node_restore_ok {p pd : Node} {t : Nat} (h : p.restore t = Except.ok pd) :
    pd.id = p.id ∧ pd.deleted_at = none ∧ pd.edges = p.edges ∧
      (∃ j, p.instances.getLast? = some j ∧ pd.instances = p.instances ++ [j.restored_child t]) := by
  unfold Node.restore at h
  by_cases hd : p.is_deleted
  · rw [if_neg (by simp [hd])] at h
    cases hg : p.instances.getLast? with
    | none => rw [hg] at h; exact Except.noConfusion h
    | some j =>
        rw [hg] at h
        obtain rfl := (Except.ok.inj h).symm
        exact ⟨rfl, rfl, rfl, j, rfl, rfl⟩
  · rw [if_pos (by simp [hd])] at h
    exact Except.noConfusion h

/-- Decomposition of a successful `NodeApi::delete` call through a handle. -/
theorem delete_node_ok {w w1 : World} {pid : Nat} {p : Node}
    (hpn : findNode w pid = some p) (hw : w.delete_node pid = Except.ok w1) :
    ∃ pd, p.delete w.clock = Except.ok pd ∧ w1 = (w.updateNode pd).tick := by
  unfold World.delete_node at hw
  simp only [hpn] at hw
  cases hq : p.delete w.clock with
  | error err =>
      simp only [hq] at hw
      exact Except.noConfusion hw
  | ok pd =>
      simp only [hq] at hw
      exact ⟨pd, rfl, (Except.ok.inj hw).symm⟩

/-- Decomposition of a successful `NodeApi::restore` call through a handle. -/
theorem restore_node_ok {w w1 : World} {pid : Nat} {p : Node}
    (hpn : findNode w pid = some p) (hw : w.restore_node pid = Except.ok w1) :
    ∃ pd, p.restore w.clock = Except.ok pd ∧ w1 = (w.updateNode pd).tick := by
  unfold World.restore_node at hw
  simp only [hpn] at hw
  cases hq : p.restore w.clock with
  | error err =>
      simp only [hq] at hw
      exact Except.noConfusion hw
  | ok pd =>
      simp only [hq] at hw
      exact ⟨pd, rfl, (Except.ok.inj hw).symm⟩

/-- C5: for a live edge `e` (handle `eid`) whose parent back-reference is the
node `pid`, soft-deleting that node through the API makes the edge report
`is_live() == false` while the edge record itself — in particular its own
`deleted_at`, which stays `none` — is untouched; restoring the node makes
`is_live() == true` again, still with no operation on the edge. -/
theorem parent_delete_restore_toggles_liveness
    (w w1 w2 : World) (eid pid : Nat) (e : Edge)
    (he : findEdge w eid = some e)
    (hp : e.parent = pid)
    (hlive : edgeLive w eid = true)
    (hdel : w.delete_node pid = Except.ok w1)
    (hres : w1.restore_node pid = Except.ok w2) :
    edgeLive w1 eid = false ∧
    findEdge w1 eid = some e ∧
    e.deleted_at = none ∧
    edgeLive w2 eid = true ∧
    findEdge w2 eid = some e := by
  unfold edgeLive at hlive
  rw [he] at hlive
  obtain ⟨hdead, ⟨c, hc, hcd⟩, ⟨p, hpn0, hpd⟩⟩ := (is_live_iff w e).mp hlive
  rw [hp] at hpn0
  have hpid : p.id = pid := findNode_id hpn0
  obtain ⟨pd, hpd1, rfl⟩ := delete_node_ok hpn0 hdel
  obtain ⟨hid1, hda1, -, -⟩ := node_delete_ok hpd1
  have hfe1 : findEdge ((w.updateNode pd).tick) eid = some e := he
  have hn1 : findNode ((w.updateNode pd).tick) pid = some pd :=
    findNode_updateNode_self pd hpn0 (hid1.trans hpid)
  have hl1 : edgeLive ((w.updateNode pd).tick) eid = false := by
    by_contra hq
    rw [Bool.not_eq_false] at hq
    unfold edgeLive at hq
    rw [hfe1] at hq
    obtain ⟨-, -, ⟨p2, hp2, hp2d⟩⟩ := (is_live_iff _ e).mp hq
    rw [hp, hn1] at hp2
    cases Option.some.inj hp2
    rw [Node.is_deleted, hda1] at hp2d
    exact Bool.noConfusion hp2d
  obtain ⟨pr, hpr1, rfl⟩ := restore_node_ok hn1 hres
  obtain ⟨hid2, hda2, -, -⟩ := node_restore_ok hpr1
  have hn2 : findNode (((((w.updateNode pd).tick)).updateNode pr).tick) pid = some pr :=
    findNode_updateNode_self pr hn1 ((hid2.trans hid1).trans hpid)
  refine ⟨hl1, hfe1, hdead, ?_, he⟩
  have hfe2 : findEdge (((((w.updateNode pd).tick)).updateNode pr).tick) eid = some e := he
  unfold edgeLive
  rw [hfe2]
  apply (is_live_iff _ e).mpr
  refine ⟨hdead, ?_, ?_⟩
  · by_cases hcp : e.child = pid
    · refine ⟨pr, ?_, ?_⟩
      · rw [hcp]
        exact hn2
      · rw [Node.is_deleted, hda2]
        rfl
    · refine ⟨c, ?_, hcd⟩
      rw [findNode_tick]
      rw [findNode_updateNode_ne pr (by rw [hid2, hid1, hpid]; exact hcp)]
      rw [findNode_tick]
      rw [findNode_updateNode_ne pd (by rw [hid1, hpid]; exact hcp)]
      exact hc
  · refine ⟨pr, ?_, ?_⟩
    · rw [hp]
      exact hn2
    · rw [Node.is_deleted, hda2]
      rfl

/-- C5 witness: edge 2 of the once-connected world `wB`, parent node 0. -/
theorem parent_delete_restore_toggles_liveness_witness :
    edgeLive c5w1 2 = false ∧
    findEdge c5w1 2 = some c5e ∧
    c5e.deleted_at = none ∧
    edgeLive c5w2 2 = true ∧
    findEdge c5w2 2 = some c5e :=
  parent_delete_restore_toggles_liveness wB c5w1 c5w2 2 0 c5e
    (by decide) (by decide) (by decide) (by decide) (by decide)

/-- C10: on a non-deleted node `n` (handle `pid`) whose collection holds two
or more live edges matching child `conn` — `h` being the first such handle in
insertion order, with record `e` — `remove_child` soft-deletes exactly that
first edge: the call succeeds, only edge `h` changes (its own `deleted_at` is
set, every other handle resolves as before), the live-edge count drops by
exactly one, and `is_parent_of(conn)` is still true afterwards. -/
theorem remove_child_deletes_first_matching_edge
    (w : World) (pid conn : Nat) (n : Node) (h : Nat) (e : Edge)
    (hn : findNode w pid = some n)
    (hnd : n.is_deleted = false)
    (hdup : n.edges.Nodup)
    (hfst : (n.live_edges w).find? (fun x => childMatches w x conn) = some h)
    (he : findEdge w h = some e)
    (hlen : 2 ≤ ((n.live_edges w).filter (fun x => childMatches w x conn)).length) :
    w.remove_child pid conn =
      Except.ok ((w.updateEdge { e with deleted_at := some w.clock }).tick) ∧
    findEdge ((w.updateEdge { e with deleted_at := some w.clock }).tick) h =
      some { e with deleted_at := some w.clock } ∧
    (∀ x, x ≠ h →
      findEdge ((w.updateEdge { e with deleted_at := some w.clock }).tick) x =
        findEdge w x) ∧
    (Node.live_edges ((w.updateEdge { e with deleted_at := some w.clock }).tick) n).length + 1 =
      (n.live_edges w).length ∧
    World.edge_count ((w.updateEdge { e with deleted_at := some w.clock }).tick) pid =
      Except.ok ((n.live_edges w).length - 1) ∧
    World.is_parent_of ((w.updateEdge { e with deleted_at := some w.clock }).tick) pid conn =
      true := by
  have hmem0 : h ∈ n.live_edges w := List.mem_of_find?_eq_some hfst
  obtain ⟨hmemE, hliveh⟩ := mem_live_edges.mp hmem0
  have heid : e.id = h := findEdge_id he
  have hlv : e.is_live w = true := by
    unfold edgeLive at hliveh
    rw [he] at hliveh
    exact hliveh
  have hdead : e.deleted_at = none := ((is_live_iff w e).mp hlv).1
  have hdel : e.delete w.clock = Except.ok { e with deleted_at := some w.clock } := by
    unfold Edge.delete
    rw [if_neg (by simp [Edge.is_deleted, hdead])]
  have hrc : w.remove_child pid conn =
      Except.ok ((w.updateEdge { e with deleted_at := some w.clock }).tick) := by
    unfold World.remove_child Node.remove_child
    simp only [hn]
    rw [if_neg (by simp [hnd])]
    simp only [hfst, he, hdel]
  have heid' : ({ e with deleted_at := some w.clock } : Edge).id = h := heid
  have hfe' : findEdge ((w.updateEdge { e with deleted_at := some w.clock }).tick) h =
      some { e with deleted_at := some w.clock } := by
    rw [findEdge_tick]
    exact findEdge_updateEdge_self _ he heid'
  have hframe : ∀ x, x ≠ h →
      findEdge ((w.updateEdge { e with deleted_at := some w.clock }).tick) x =
        findEdge w x := by
    intro x hx
    rw [findEdge_tick]
    exact findEdge_updateEdge_ne _ (by rw [heid']; exact hx)
  have hliveframe : ∀ x, x ≠ h →
      edgeLive ((w.updateEdge { e with deleted_at := some w.clock }).tick) x =
        edgeLive w x := by
    intro x hx
    unfold edgeLive
    rw [findEdge_tick, findEdge_updateEdge_ne _ (by rw [heid']; exact hx)]
    rfl
  have hliveh' :
      edgeLive ((w.updateEdge { e with deleted_at := some w.clock }).tick) h = false := by
    unfold edgeLive
    rw [hfe']
    unfold Edge.is_live
    simp
  have hlen4 :
      (Node.live_edges ((w.updateEdge { e with deleted_at := some w.clock }).tick) n).length + 1 =
        (n.live_edges w).length := by
    unfold Node.live_edges
    exact filter_length_flip hdup hmemE hliveh hliveh'
      (fun x _ hxh => hliveframe x hxh)
  have hn' : findNode ((w.updateEdge { e with deleted_at := some w.clock }).tick) pid =
      some n := hn
  have hec : World.edge_count ((w.updateEdge { e with deleted_at := some w.clock }).tick) pid =
      Except.ok ((n.live_edges w).length - 1) := by
    unfold World.edge_count
    simp only [hn']
    unfold Node.edge_count
    exact congrArg Except.ok (by omega)
  have hfilter := find?_eq_head?_filter (fun x => childMatches w x conn) (n.live_edges w)
  rw [hfst] at hfilter
  have hmdup : ((n.live_edges w).filter (fun x => childMatches w x conn)).Nodup :=
    (hdup.filter _).filter _
  cases hm : (n.live_edges w).filter (fun x => childMatches w x conn) with
  | nil =>
      rw [hm] at hfilter
      exact Option.noConfusion hfilter
  | cons a rest =>
      cases rest with
      | nil =>
          rw [hm] at hlen
          simp at hlen
      | cons b rest2 =>
          rw [hm] at hfilter
          have hah : a = h := (Option.some.inj hfilter).symm
          rw [hm] at hmdup
          have hbh : b ≠ h := by
            rcases List.nodup_cons.mp hmdup with ⟨hna, -⟩
            intro hq
            exact hna (by rw [hah, ← hq]; exact List.mem_cons_self b rest2)
          have hbm : b ∈ (n.live_edges w).filter (fun x => childMatches w x conn) := by
            rw [hm]
            exact List.mem_cons_of_mem a (List.mem_cons_self b rest2)
          obtain ⟨hbl, hcmb⟩ := List.mem_filter.mp hbm
          obtain ⟨hbe, hblive⟩ := mem_live_edges.mp hbl
          have hcm' : childMatches ((w.updateEdge { e with deleted_at := some w.clock }).tick)
              b conn = true := by
            unfold childMatches EdgeRef.read_child
            rw [findEdge_tick, findEdge_updateEdge_ne _ (by rw [heid']; exact hbh)]
            exact hcmb
          have hip : World.is_parent_of
              ((w.updateEdge { e with deleted_at := some w.clock }).tick) pid conn = true := by
            unfold World.is_parent_of
            simp only [hn']
            unfold Node.is_parent_of
            rw [List.any_eq_true]
            refine ⟨b, mem_live_edges.mpr ⟨hbe, ?_⟩, hcm'⟩
            rw [hliveframe b hbh]
            exact hblive
          exact ⟨hrc, hfe', hframe, hlen4, hec, hip⟩

/-- C10 witness: the doubly-connected world `wC`, where node 0 holds two live
edges (handles 2 and 3) to node 1; `remove_child(node 1)` deletes edge 2,
`edge_count` drops from 2 to 1, and `is_parent_of(node 1)` stays true. -/
theorem remove_child_deletes_first_matching_edge_witness :
    wC.remove_child 0 1 =
      Except.ok ((wC.updateEdge { c10e with deleted_at := some wC.clock }).tick) ∧
    findEdge ((wC.updateEdge { c10e with deleted_at := some wC.clock }).tick) 2 =
      some { c10e with deleted_at := some wC.clock } ∧
    World.edge_count ((wC.updateEdge { c10e with deleted_at := some wC.clock }).tick) 0 =
      Except.ok 1 ∧
    World.is_parent_of ((wC.updateEdge { c10e with deleted_at := some wC.clock }).tick) 0 1 =
      true := by
  have H := remove_child_deletes_first_matching_edge wC 0 1 c10n 2 c10e
    (by decide) (by decide) (by decide) (by decide) (by decide) (by decide)
  exact ⟨H.1, H.2.1, H.2.2.2.2.1.trans (by decide), H.2.2.2.2.2⟩
